import Mathlib

/-!
Shallow embedding of `convert_to_everyayah.py`: a tool that splits whole-surah
Quran audio files into per-verse files, using durations probed from a reference
corpus.  External effects (network fetch, cache hits, ffprobe duration probes,
ffmpeg trim invocations, filesystem existence checks) are modelled by an
explicit environment of outcome functions; all arithmetic on seconds is done
in ℚ.  Python exceptions that the script does not catch are modelled by
`Option`/`none` (the exception propagates and aborts the enclosing loop).
-/

namespace EveryAyah

/-- The static per-surah verse-count table `AYAH_COUNTS` (lines 24-32). -/
def AYAH_COUNTS : List ℕ := [
    7, 286, 200, 176, 120, 165, 206, 75, 129, 109, 123, 111, 43, 52, 99,
    128, 111, 110, 98, 135, 112, 78, 118, 64, 77, 227, 93, 88, 69, 60,
    34, 30, 73, 54, 45, 83, 182, 88, 75, 85, 54, 53, 89, 59, 37, 35, 38,
    29, 18, 45, 60, 49, 62, 55, 78, 96, 29, 22, 24, 13, 14, 11, 11, 18,
    12, 12, 30, 52, 52, 44, 28, 28, 20, 56, 40, 31, 50, 40, 46, 42, 29,
    19, 36, 25, 22, 17, 19, 26, 30, 20, 15, 21, 11, 8, 8, 19, 5, 8, 8,
    11, 11, 8, 3, 9, 5, 4, 7, 3, 6, 3, 5, 4, 5, 6
]

/-- Python list subscription `l[i]` for an `int` index: a nonnegative index
is direct, a negative index counts from the end, anything else raises
`IndexError` (modelled as `none`). -/
def pyGet (l : List ℕ) (i : ℤ) : Option ℕ :=
  if 0 ≤ i then l.get? i.toNat
  else if 0 ≤ i + l.length then l.get? (i + l.length).toNat
  else none

/-- Decimal digit characters of a natural number, most significant first
(Python `repr` of a nonnegative int). -/
def decChars (n : ℕ) : List Char :=
  if n = 0 then ['0'] else ((Nat.digits 10 n).map Nat.digitChar).reverse

/-- Python format `f"{n:03d}"`: decimal representation zero-padded to total
width 3, the sign (for a negative int) counting toward the width. -/
def pyFmt03d (n : ℤ) : String :=
  if n < 0 then
    String.mk ('-' :: List.replicate (2 - (decChars n.natAbs).length) '0'
      ++ decChars n.natAbs)
  else
    String.mk (List.replicate (3 - (decChars n.toNat).length) '0'
      ++ decChars n.toNat)

/-- One verse timing record: the dict appended at lines 88-93
(`{'ayah': …, 'start': …, 'duration': …, 'end': …}`). -/
structure VerseTiming where
  ayah : ℕ
  start : ℚ
  duration : ℚ
  end_ : ℚ
deriving Repr, DecidableEq

/-- Codec selection of an ffmpeg trim call: `-c copy` (fast path, line 138)
or `-c:a libmp3lame -b:a 128k` (fallback, lines 152-153). -/
inductive TrimMode where
  | copy
  | reencode
deriving Repr, DecidableEq

/-- Outcome of one `subprocess.run(..., check=True)` ffmpeg invocation:
normal exit, `CalledProcessError` (non-zero exit status), or an invocation
error such as `OSError` (binary not runnable). -/
inductive TrimOutcome where
  | ok
  | exitFail
  | invokeError
deriving Repr, DecidableEq

/-- One ffmpeg trim invocation, by its argument list (lines 133-140 and
147-155): `-y` (overwrite), `-i input`, `-ss start`, `-t duration`,
codec mode, output path. -/
structure TrimCall where
  overwrite : Bool
  input : String
  start : ℚ
  duration : ℚ
  mode : TrimMode
  output : String
deriving Repr, DecidableEq

/-- What happened for one verse in the splitting loop: the ffmpeg calls
issued for it, and whether one of them succeeded (an output file written). -/
structure VerseEvent where
  ayah : ℕ
  calls : List TrimCall
  success : Bool
deriving Repr, DecidableEq

/-- Environment of external outcomes: cache state, network fetch results,
ffprobe duration probe results (`none` = the probe raised or its output
did not parse), ffmpeg trim outcomes, input-file existence, and the two
configured directories. -/
structure Env where
  cached : ℤ → ℕ → Bool
  fetchOk : ℤ → ℕ → Bool
  probe : ℤ → ℕ → Option ℚ
  trim : TrimCall → TrimOutcome
  inputExists : ℤ → Bool
  input_dir : String
  output_dir : String

/-- Cache path of a reference asset:
`everyayah_reference_48kbps/{surah:03d}{ayah:03d}.mp3` (lines 60-62). -/
def reference_path (surah : ℤ) (ayah : ℕ) : String :=
  "everyayah_reference_48kbps/" ++ pyFmt03d surah ++ pyFmt03d ayah ++ ".mp3"

/-- `download_reference_ayah` (lines 58-73): if the file is already cached,
return its path with no network fetch; otherwise attempt a fetch (second
component `true`), returning the path on success and `none` on failure. -/
def download_reference_ayah (env : Env) (surah : ℤ) (ayah : ℕ) :
    Option String × Bool :=
  if env.cached surah ayah then (some (reference_path surah ayah), false)
  else if env.fetchOk surah ayah then (some (reference_path surah ayah), true)
  else (none, true)

/-- The loop body of `get_ayah_timings_from_reference` (lines 83-94), over an
explicit list of ayah numbers, threading the cumulative time.  Returns the
timing list and the number of network fetch attempts made.  A record is
appended only when the reference file is present and the probed duration is
truthy (`if duration:`), i.e. not `None` and not `0.0`. -/
def resolveGo (env : Env) (surah : ℤ) : List ℕ → ℚ → List VerseTiming × ℕ
  | [], _ => ([], 0)
  | a :: rest, cum =>
    let dl := download_reference_ayah env surah a
    let fet : ℕ := if dl.2 then 1 else 0
    match dl.1 with
    | none =>
      let r := resolveGo env surah rest cum
      (r.1, fet + r.2)
    | some _ =>
      match env.probe surah a with
      | some d =>
        if d ≠ 0 then
          let r := resolveGo env surah rest (cum + d)
          (⟨a, cum, d, cum + d⟩ :: r.1, fet + r.2)
        else
          let r := resolveGo env surah rest cum
          (r.1, fet + r.2)
      | none =>
        let r := resolveGo env surah rest cum
        (r.1, fet + r.2)

/-- The ayah numbers `range(1, ayah_count + 1)` (line 83). -/
def ayahList (n : ℕ) : List ℕ := (List.range n).map (· + 1)

/-- `get_ayah_timings_from_reference` (lines 75-96): look the verse count up
as `AYAH_COUNTS[surah - 1]` (an uncaught `IndexError`, modelled `none`, if out
of bounds), then fold over verses 1..count from cumulative time 0. -/
def get_ayah_timings_from_reference (env : Env) (surah : ℤ) :
    Option (List VerseTiming × ℕ) :=
  (pyGet AYAH_COUNTS (surah - 1)).map fun n => resolveGo env surah (ayahList n) 0

/-- Output segment path `output_dir / f"{surah:03d}{ayah:03d}.mp3"`
(line 123). -/
def output_path (env : Env) (surah : ℤ) (ayah : ℕ) : String :=
  env.output_dir ++ "/" ++ pyFmt03d surah ++ pyFmt03d ayah ++ ".mp3"

/-- Input chapter path `input_dir / f"{surah:03d}.mp3"` (line 101). -/
def input_path (env : Env) (surah : ℤ) : String :=
  env.input_dir ++ "/" ++ pyFmt03d surah ++ ".mp3"

/-- The fast stream-copy trim call for one timing record (lines 133-140). -/
def fastCall (env : Env) (input : String) (surah : ℤ) (t : VerseTiming) :
    TrimCall :=
  ⟨true, input, t.start, t.duration, TrimMode.copy, output_path env surah t.ayah⟩

/-- The re-encoding fallback trim call (lines 147-155): same input, start,
duration and output as the fast call, `libmp3lame` at 128k instead of copy. -/
def fallbackCall (env : Env) (input : String) (surah : ℤ) (t : VerseTiming) :
    TrimCall :=
  ⟨true, input, t.start, t.duration, TrimMode.reencode,
    output_path env surah t.ayah⟩

/-- The splitting loop of `split_surah` (lines 121-161).  Per record: run the
fast call; on normal exit the verse is done; on `CalledProcessError` run the
fallback and catch any of its exceptions (`except Exception`), recording
failure but continuing; an invocation error of the fast call is caught by
neither handler, so it propagates and aborts the loop (`none`). -/
def run_trims (env : Env) (input : String) (surah : ℤ) :
    List VerseTiming → Option (List VerseEvent)
  | [] => some []
  | t :: rest =>
    match env.trim (fastCall env input surah t) with
    | TrimOutcome.ok =>
      (run_trims env input surah rest).map
        (⟨t.ayah, [fastCall env input surah t], true⟩ :: ·)
    | TrimOutcome.exitFail =>
      match env.trim (fallbackCall env input surah t) with
      | TrimOutcome.ok =>
        (run_trims env input surah rest).map
          (⟨t.ayah, [fastCall env input surah t,
            fallbackCall env input surah t], true⟩ :: ·)
      | _ =>
        (run_trims env input surah rest).map
          (⟨t.ayah, [fastCall env input surah t,
            fallbackCall env input surah t], false⟩ :: ·)
    | TrimOutcome.invokeError => none

/-- `split_surah` (lines 98-162): missing input file returns `False` at once
with no work; then the timing resolver runs (its `IndexError` propagates);
an empty timing list returns `False`; otherwise the splitting loop runs and
the function returns `True`.  The result pairs the returned bool with the
per-verse events. -/
def split_surah (env : Env) (surah : ℤ) : Option (Bool × List VerseEvent) :=
  if env.inputExists surah = false then some (false, [])
  else
    match get_ayah_timings_from_reference env surah with
    | none => none
    | some (timings, _) =>
      if timings = [] then some (false, [])
      else
        (run_trims env (input_path env surah) surah timings).map
          (fun es => (true, es))

/-- Python `range(start, end + 1)` over ints (line 171). -/
def pyRangeIncl (start end_ : ℤ) : List ℤ :=
  (List.range (end_ + 1 - start).toNat).map (fun i => start + i)

/-- The per-chapter loop of `convert_all`: any exception escaping
`split_surah` propagates and aborts the whole loop. -/
def convertGo (env : Env) : List ℤ → Option (List (ℤ × Bool × List VerseEvent))
  | [] => some []
  | s :: rest =>
    match split_surah env s with
    | none => none
    | some r => (convertGo env rest).map ((s, r) :: ·)

/-- `convert_all` (lines 164-177): run `split_surah` for every chapter in the
inclusive range, sequentially. -/
def convert_all (env : Env) (start end_ : ℤ) :
    Option (List (ℤ × Bool × List VerseEvent)) :=
  convertGo env (pyRangeIncl start end_)

/-- The spec's output-segment name: the 3-digit zero-padded chapter index
concatenated with the 3-digit zero-padded verse index plus `.mp3`
(written from the spec's words, for comparison with the source's
`f"{surah:03d}{ayah:03d}.mp3"` formatting). -/
def specPad3 (n : ℕ) : String :=
  String.mk [Nat.digitChar (n / 100 % 10), Nat.digitChar (n / 10 % 10),
    Nat.digitChar (n % 10)]

end EveryAyah

namespace EveryAyah

/-! ### Structural lemmas about the timing resolver -/

theorem resolveGo_nil (env : Env) (s : ℤ) (cum : ℚ) :
    resolveGo env s [] cum = ([], 0) := rfl

theorem resolveGo_cons_fetchfail (env : Env) (s : ℤ) (a : ℕ) (rest : List ℕ)
    (cum : ℚ) (h : (download_reference_ayah env s a).1 = none) :
    resolveGo env s (a :: rest) cum =
      ((resolveGo env s rest cum).1,
        (if (download_reference_ayah env s a).2 then 1 else 0)
          + (resolveGo env s rest cum).2) := by
  simp only [resolveGo, h]

theorem resolveGo_cons_probefail (env : Env) (s : ℤ) (a : ℕ) (rest : List ℕ)
    (cum : ℚ) (p : String) (h : (download_reference_ayah env s a).1 = some p)
    (hp : env.probe s a = none) :
    resolveGo env s (a :: rest) cum =
      ((resolveGo env s rest cum).1,
        (if (download_reference_ayah env s a).2 then 1 else 0)
          + (resolveGo env s rest cum).2) := by
  simp only [resolveGo, h, hp]

theorem resolveGo_cons_zero (env : Env) (s : ℤ) (a : ℕ) (rest : List ℕ)
    (cum : ℚ) (p : String) (h : (download_reference_ayah env s a).1 = some p)
    (hp : env.probe s a = some 0) :
    resolveGo env s (a :: rest) cum =
      ((resolveGo env s rest cum).1,
        (if (download_reference_ayah env s a).2 then 1 else 0)
          + (resolveGo env s rest cum).2) := by
  simp only [resolveGo, h, hp, ne_eq, not_true_eq_false, if_false]

theorem resolveGo_cons_ok (env : Env) (s : ℤ) (a : ℕ) (rest : List ℕ)
    (cum : ℚ) (p : String) (d : ℚ)
    (h : (download_reference_ayah env s a).1 = some p)
    (hp : env.probe s a = some d) (hd : d ≠ 0) :
    resolveGo env s (a :: rest) cum =
      (⟨a, cum, d, cum + d⟩ :: (resolveGo env s rest (cum + d)).1,
        (if (download_reference_ayah env s a).2 then 1 else 0)
          + (resolveGo env s rest (cum + d)).2) := by
  simp only [resolveGo, h, hp, ne_eq, hd, not_false_eq_true, if_true]

theorem resolveGo_length_le (env : Env) (s : ℤ) :
    ∀ (l : List ℕ) (cum : ℚ), ((resolveGo env s l cum).1).length ≤ l.length := by
  intro l
  induction l with
  | nil => intro cum; simp [resolveGo_nil]
  | cons a rest ih =>
    intro cum
    rcases hdl : (download_reference_ayah env s a).1 with _ | p
    · rw [resolveGo_cons_fetchfail env s a rest cum hdl]
      exact le_trans (ih cum) (Nat.le_succ _)
    · rcases hp : env.probe s a with _ | d
      · rw [resolveGo_cons_probefail env s a rest cum p hdl hp]
        exact le_trans (ih cum) (Nat.le_succ _)
      · by_cases hd : d = 0
        · subst hd
          rw [resolveGo_cons_zero env s a rest cum p hdl hp]
          exact le_trans (ih cum) (Nat.le_succ _)
        · rw [resolveGo_cons_ok env s a rest cum p d hdl hp hd]
          simpa using ih (cum + d)

theorem resolveGo_head_start (env : Env) (s : ℤ) :
    ∀ (l : List ℕ) (cum : ℚ) (r : VerseTiming) (rs : List VerseTiming),
      (resolveGo env s l cum).1 = r :: rs → r.start = cum := by
  intro l
  induction l with
  | nil => intro cum r rs h; simp [resolveGo_nil] at h
  | cons a rest ih =>
    intro cum r rs h
    rcases hdl : (download_reference_ayah env s a).1 with _ | p
    · rw [resolveGo_cons_fetchfail env s a rest cum hdl] at h
      exact ih cum r rs h
    · rcases hp : env.probe s a with _ | d
      · rw [resolveGo_cons_probefail env s a rest cum p hdl hp] at h
        exact ih cum r rs h
      · by_cases hd : d = 0
        · subst hd
          rw [resolveGo_cons_zero env s a rest cum p hdl hp] at h
          exact ih cum r rs h
        · rw [resolveGo_cons_ok env s a rest cum p d hdl hp hd] at h
          have : r = ⟨a, cum, d, cum + d⟩ := (List.cons_eq_cons.mp h).1.symm
          rw [this]

theorem resolveGo_chain (env : Env) (s : ℤ) :
    ∀ (l : List ℕ) (cum : ℚ),
      List.Chain' (fun x y => x.end_ = y.start) (resolveGo env s l cum).1 := by
  intro l
  induction l with
  | nil => intro cum; simp [resolveGo_nil]
  | cons a rest ih =>
    intro cum
    rcases hdl : (download_reference_ayah env s a).1 with _ | p
    · rw [resolveGo_cons_fetchfail env s a rest cum hdl]; exact ih cum
    · rcases hp : env.probe s a with _ | d
      · rw [resolveGo_cons_probefail env s a rest cum p hdl hp]; exact ih cum
      · by_cases hd : d = 0
        · subst hd
          rw [resolveGo_cons_zero env s a rest cum p hdl hp]; exact ih cum
        · rw [resolveGo_cons_ok env s a rest cum p d hdl hp hd]
          rcases htl : (resolveGo env s rest (cum + d)).1 with _ | ⟨r, rs⟩
          · simp
          · refine List.Chain'.cons ?_ (htl ▸ ih (cum + d))
            have := resolveGo_head_start env s rest (cum + d) r rs htl
            simp [this]

end EveryAyah

namespace EveryAyah

theorem ayahList_length (n : ℕ) : (ayahList n).length = n := by
  simp [ayahList]

theorem resolveGo_mem_end (env : Env) (s : ℤ) :
    ∀ (l : List ℕ) (cum : ℚ) (r : VerseTiming),
      r ∈ (resolveGo env s l cum).1 → r.end_ = r.start + r.duration := by
  intro l
  induction l with
  | nil => intro cum r h; simp [resolveGo_nil] at h
  | cons a rest ih =>
    intro cum r h
    rcases hdl : (download_reference_ayah env s a).1 with _ | p
    · rw [resolveGo_cons_fetchfail env s a rest cum hdl] at h
      exact ih cum r h
    · rcases hp : env.probe s a with _ | d
      · rw [resolveGo_cons_probefail env s a rest cum p hdl hp] at h
        exact ih cum r h
      · by_cases hd : d = 0
        · subst hd
          rw [resolveGo_cons_zero env s a rest cum p hdl hp] at h
          exact ih cum r h
        · rw [resolveGo_cons_ok env s a rest cum p d hdl hp hd] at h
          rcases List.mem_cons.mp h with h1 | h2
          · rw [h1]
          · exact ih (cum + d) r h2

theorem resolveGo_mem_duration_ne_zero (env : Env) (s : ℤ) :
    ∀ (l : List ℕ) (cum : ℚ) (r : VerseTiming),
      r ∈ (resolveGo env s l cum).1 → r.duration ≠ 0 := by
  intro l
  induction l with
  | nil => intro cum r h; simp [resolveGo_nil] at h
  | cons a rest ih =>
    intro cum r h
    rcases hdl : (download_reference_ayah env s a).1 with _ | p
    · rw [resolveGo_cons_fetchfail env s a rest cum hdl] at h
      exact ih cum r h
    · rcases hp : env.probe s a with _ | d
      · rw [resolveGo_cons_probefail env s a rest cum p hdl hp] at h
        exact ih cum r h
      · by_cases hd : d = 0
        · subst hd
          rw [resolveGo_cons_zero env s a rest cum p hdl hp] at h
          exact ih cum r h
        · rw [resolveGo_cons_ok env s a rest cum p d hdl hp hd] at h
          rcases List.mem_cons.mp h with h1 | h2
          · rw [h1]; exact hd
          · exact ih (cum + d) r h2

/-- Skipping condition for a verse: its reference download fails, or its
duration probe fails, or the probe returns the falsy duration `0.0`. -/
def skipsVerse (env : Env) (s : ℤ) (k : ℕ) : Prop :=
  (download_reference_ayah env s k).1 = none ∨ env.probe s k = none ∨
    env.probe s k = some 0

theorem resolveGo_filter_skip (env : Env) (s : ℤ) (k : ℕ)
    (hs : skipsVerse env s k) :
    ∀ (l : List ℕ) (cum : ℚ),
      (resolveGo env s l cum).1 =
        (resolveGo env s (l.filter (· ≠ k)) cum).1 := by
  intro l
  induction l with
  | nil => intro cum; simp
  | cons a rest ih =>
    intro cum
    by_cases hak : a = k
    · subst hak
      have hfil : (a :: rest).filter (· ≠ a) = rest.filter (· ≠ a) := by
        simp [List.filter_cons]
      rw [hfil]
      have hskip : (resolveGo env s (a :: rest) cum).1 =
          (resolveGo env s rest cum).1 := by
        rcases hs with h1 | h2 | h3
        · rw [resolveGo_cons_fetchfail env s a rest cum h1]
        · rcases hdl : (download_reference_ayah env s a).1 with _ | p
          · rw [resolveGo_cons_fetchfail env s a rest cum hdl]
          · rw [resolveGo_cons_probefail env s a rest cum p hdl h2]
        · rcases hdl : (download_reference_ayah env s a).1 with _ | p
          · rw [resolveGo_cons_fetchfail env s a rest cum hdl]
          · rw [resolveGo_cons_zero env s a rest cum p hdl h3]
      rw [hskip, ih cum]
    · have hfil : (a :: rest).filter (· ≠ k) = a :: rest.filter (· ≠ k) := by
        simp [List.filter_cons, hak]
      rw [hfil]
      rcases hdl : (download_reference_ayah env s a).1 with _ | p
      · rw [resolveGo_cons_fetchfail env s a rest cum hdl,
          resolveGo_cons_fetchfail env s a (rest.filter (· ≠ k)) cum hdl]
        exact ih cum
      · rcases hp : env.probe s a with _ | d
        · rw [resolveGo_cons_probefail env s a rest cum p hdl hp,
            resolveGo_cons_probefail env s a (rest.filter (· ≠ k)) cum p hdl hp]
          exact ih cum
        · by_cases hd : d = 0
          · subst hd
            rw [resolveGo_cons_zero env s a rest cum p hdl hp,
              resolveGo_cons_zero env s a (rest.filter (· ≠ k)) cum p hdl hp]
            exact ih cum
          · rw [resolveGo_cons_ok env s a rest cum p d hdl hp hd,
              resolveGo_cons_ok env s a (rest.filter (· ≠ k)) cum p d hdl hp hd]
            simp only [List.cons.injEq, true_and]
            exact ih (cum + d)

end EveryAyah

namespace EveryAyah

/-- C1: for every chapter index with declared verse count N, the timing
list returned by the resolver has length at most N, and each record's
`end` offset equals the next record's `start` offset, for every outcome
environment (any combination of fetch and probe successes). -/
theorem resolver_length_le_and_contiguous (env : Env) (s : ℤ) (N : ℕ)
    (hN : pyGet AYAH_COUNTS (s - 1) = some N)
    (ts : List VerseTiming) (fetches : ℕ)
    (hres : get_ayah_timings_from_reference env s = some (ts, fetches)) :
    ts.length ≤ N ∧
      ∀ (i : ℕ) (h : i + 1 < ts.length),
        (ts.get ⟨i, Nat.lt_of_succ_lt h⟩).end_ = (ts.get ⟨i + 1, h⟩).start := by
  rw [get_ayah_timings_from_reference, hN, Option.map_some'] at hres
  have hres2 : resolveGo env s (ayahList N) 0 = (ts, fetches) :=
    Option.some.inj hres
  have h1 : (resolveGo env s (ayahList N) 0).1 = ts := by rw [hres2]
  constructor
  · have hlen := resolveGo_length_le env s (ayahList N) 0
    rw [h1, ayahList_length] at hlen
    exact hlen
  · have hc := resolveGo_chain env s (ayahList N) 0
    rw [h1] at hc
    intro i h
    exact List.chain'_iff_get.mp hc i (by omega)

/-- Concrete environment for the C1 witness: everything cached, every probe
returns 1 second. -/
def envC1 : Env where
  cached := fun _ _ => true
  fetchOk := fun _ _ => true
  probe := fun _ _ => some 1
  trim := fun _ => TrimOutcome.ok
  inputExists := fun _ => true
  input_dir := "in"
  output_dir := "out"

/-- The timing list envC1 produces for surah 103 (3 verses of 1 second). -/
def tsC1 : List VerseTiming := [⟨1, 0, 1, 1⟩, ⟨2, 1, 1, 2⟩, ⟨3, 2, 1, 3⟩]

/-- Witness for C1 at surah 103 under `envC1`. -/
theorem resolver_length_le_and_contiguous_witness :
    tsC1.length ≤ 3 ∧
      (tsC1.get ⟨0, by norm_num [tsC1]⟩).end_ =
        (tsC1.get ⟨1, by norm_num [tsC1]⟩).start := by
  have h := resolver_length_le_and_contiguous envC1 103 3 (by decide) tsC1 0
    (by norm_num [get_ayah_timings_from_reference, resolveGo, ayahList, pyGet,
      AYAH_COUNTS, download_reference_ayah, envC1, tsC1, List.range_succ])
  exact ⟨h.1, h.2 0 (by norm_num [tsC1])⟩

/-- Concrete environment for C4: everything cached, probes for verses 1, 2, 3
return 3.0, 2.5 and 4.0 seconds. -/
def envC4 : Env where
  cached := fun _ _ => true
  fetchOk := fun _ _ => true
  probe := fun _ a =>
    if a = 1 then some 3 else if a = 2 then some (5/2) else
    if a = 3 then some 4 else none
  trim := fun _ => TrimOutcome.ok
  inputExists := fun _ => true
  input_dir := "in"
  output_dir := "out"

/-- C4: with probe durations 3.0, 2.5, 4.0 for the three verses of surah 103,
the resolver returns records with (start, end) = (0, 3.0), (3.0, 5.5),
(5.5, 9.5). -/
theorem resolver_offsets_for_durations_3_25_4 :
    get_ayah_timings_from_reference envC4 103 =
      some ([⟨1, 0, 3, 3⟩, ⟨2, 3, 5/2, 11/2⟩, ⟨3, 11/2, 4, 19/2⟩], 0) := by
  norm_num [get_ayah_timings_from_reference, resolveGo, ayahList, pyGet,
    AYAH_COUNTS, download_reference_ayah, envC4, List.range_succ]

end EveryAyah

namespace EveryAyah

theorem resolveGo_mem_ayah (env : Env) (s : ℤ) :
    ∀ (l : List ℕ) (cum : ℚ) (r : VerseTiming),
      r ∈ (resolveGo env s l cum).1 → r.ayah ∈ l := by
  intro l
  induction l with
  | nil => intro cum r h; simp [resolveGo_nil] at h
  | cons a rest ih =>
    intro cum r h
    rcases hdl : (download_reference_ayah env s a).1 with _ | p
    · rw [resolveGo_cons_fetchfail env s a rest cum hdl] at h
      exact List.mem_cons_of_mem a (ih cum r h)
    · rcases hp : env.probe s a with _ | d
      · rw [resolveGo_cons_probefail env s a rest cum p hdl hp] at h
        exact List.mem_cons_of_mem a (ih cum r h)
      · by_cases hd : d = 0
        · subst hd
          rw [resolveGo_cons_zero env s a rest cum p hdl hp] at h
          exact List.mem_cons_of_mem a (ih cum r h)
        · rw [resolveGo_cons_ok env s a rest cum p d hdl hp hd] at h
          rcases List.mem_cons.mp h with h1 | h2
          · rw [h1]; exact List.mem_cons_self a rest
          · exact List.mem_cons_of_mem a (ih (cum + d) r h2)

/-- C3: if the reference fetch or the duration probe for verse k fails, the
resolver output is exactly the output over the verse sequence with k removed:
verse k is omitted (no record carries its index) and every later verse's
offsets are computed as if k never existed. -/
theorem resolver_failed_verse_omitted (env : Env) (s : ℤ) (k : ℕ) (N : ℕ)
    (hk : (download_reference_ayah env s k).1 = none ∨ env.probe s k = none)
    (hN : pyGet AYAH_COUNTS (s - 1) = some N)
    (ts : List VerseTiming) (fetches : ℕ)
    (hres : get_ayah_timings_from_reference env s = some (ts, fetches)) :
    ts = (resolveGo env s ((ayahList N).filter (· ≠ k)) 0).1 ∧
      ∀ r ∈ ts, r.ayah ≠ k := by
  rw [get_ayah_timings_from_reference, hN, Option.map_some'] at hres
  have hres2 : resolveGo env s (ayahList N) 0 = (ts, fetches) :=
    Option.some.inj hres
  have h1 : (resolveGo env s (ayahList N) 0).1 = ts := by rw [hres2]
  have hsk : skipsVerse env s k := by
    rcases hk with h | h
    · exact Or.inl h
    · exact Or.inr (Or.inl h)
  constructor
  · rw [← h1]
    exact resolveGo_filter_skip env s k hsk (ayahList N) 0
  · intro r hr
    have hmem : r.ayah ∈ (ayahList N).filter (· ≠ k) := by
      apply resolveGo_mem_ayah env s ((ayahList N).filter (· ≠ k)) 0 r
      rw [← resolveGo_filter_skip env s k hsk (ayahList N) 0, h1]
      exact hr
    have := List.of_mem_filter hmem
    simpa using this

/-- Concrete environment for the C3 witness: verse 2's probe fails, every
other verse probes to 1 second. -/
def envC3 : Env where
  cached := fun _ _ => true
  fetchOk := fun _ _ => true
  probe := fun _ a => if a = 2 then none else some 1
  trim := fun _ => TrimOutcome.ok
  inputExists := fun _ => true
  input_dir := "in"
  output_dir := "out"

/-- The timing list envC3 produces for surah 103 (verse 2 skipped). -/
def tsC3 : List VerseTiming := [⟨1, 0, 1, 1⟩, ⟨3, 1, 1, 2⟩]

/-- Witness for C3: surah 103 under `envC3`, verse 2 skipped. -/
theorem resolver_failed_verse_omitted_witness :
    tsC3 = (resolveGo envC3 103 ((ayahList 3).filter (· ≠ 2)) 0).1 := by
  have h := resolver_failed_verse_omitted envC3 103 2 3
    (Or.inr (by norm_num [envC3])) (by decide) tsC3 0
    (by norm_num [get_ayah_timings_from_reference, resolveGo, ayahList, pyGet,
      AYAH_COUNTS, download_reference_ayah, envC3, tsC3, List.range_succ])
  exact h.1

/-- C9: a probe that succeeds with exactly 0.0 seconds is treated like a
probe failure — the verse is dropped and the cumulative time is unchanged,
i.e. the output equals the output over the verse sequence with that verse
removed — and no record with zero duration ever appears in any resolver
output. -/
theorem resolver_zero_duration_probe_skips (env : Env) (s : ℤ) (k : ℕ)
    (hp : env.probe s k = some 0) :
    (∀ (l : List ℕ) (cum : ℚ),
        (resolveGo env s l cum).1 =
          (resolveGo env s (l.filter (· ≠ k)) cum).1) ∧
      ∀ (l : List ℕ) (cum : ℚ) (r : VerseTiming),
        r ∈ (resolveGo env s l cum).1 → r.duration ≠ 0 := by
  constructor
  · exact resolveGo_filter_skip env s k (Or.inr (Or.inr hp))
  · exact resolveGo_mem_duration_ne_zero env s

/-- Concrete environment for the C9 witness: verse 2 probes to 0.0 seconds,
every other verse to 1 second. -/
def envC9 : Env where
  cached := fun _ _ => true
  fetchOk := fun _ _ => true
  probe := fun _ a => if a = 2 then some 0 else some 1
  trim := fun _ => TrimOutcome.ok
  inputExists := fun _ => true
  input_dir := "in"
  output_dir := "out"

/-- Witness for C9: surah 103 under `envC9`, verse 2 dropped. -/
theorem resolver_zero_duration_probe_skips_witness :
    (resolveGo envC9 103 (ayahList 3) 0).1 =
      (resolveGo envC9 103 ((ayahList 3).filter (· ≠ 2)) 0).1 :=
  (resolver_zero_duration_probe_skips envC9 103 2
    (by norm_num [envC9])).1 (ayahList 3) 0

end EveryAyah

namespace EveryAyah

theorem resolveGo_pos (env : Env) (s : ℤ)
    (hpos : ∀ (a : ℕ) (d : ℚ), env.probe s a = some d → 0 ≤ d) :
    ∀ (l : List ℕ) (cum : ℚ), 0 ≤ cum →
      ∀ r ∈ (resolveGo env s l cum).1, 0 < r.duration ∧ cum ≤ r.start := by
  intro l
  induction l with
  | nil => intro cum _ r h; simp [resolveGo_nil] at h
  | cons a rest ih =>
    intro cum hcum r h
    rcases hdl : (download_reference_ayah env s a).1 with _ | p
    · rw [resolveGo_cons_fetchfail env s a rest cum hdl] at h
      exact ih cum hcum r h
    · rcases hp : env.probe s a with _ | d
      · rw [resolveGo_cons_probefail env s a rest cum p hdl hp] at h
        exact ih cum hcum r h
      · by_cases hd : d = 0
        · subst hd
          rw [resolveGo_cons_zero env s a rest cum p hdl hp] at h
          exact ih cum hcum r h
        · have hdpos : 0 < d := lt_of_le_of_ne (hpos a d hp) (Ne.symm hd)
          rw [resolveGo_cons_ok env s a rest cum p d hdl hp hd] at h
          rcases List.mem_cons.mp h with h1 | h2
          · rw [h1]; exact ⟨hdpos, le_refl cum⟩
          · have := ih (cum + d) (by linarith) r h2
            exact ⟨this.1, by linarith [this.2]⟩

/-- Counterexample environment for C2: the probe for verse 1 "succeeds"
with the negative value -1.0 (which Python's `if duration:` accepts as
truthy), all other probes fail. -/
def envC2 : Env where
  cached := fun _ _ => true
  fetchOk := fun _ _ => true
  probe := fun _ a => if a = 1 then some (-1) else none
  trim := fun _ => TrimOutcome.ok
  inputExists := fun _ => true
  input_dir := "in"
  output_dir := "out"

/-- Counterexample to C2 as stated: under `envC2` the resolver output for
surah 103 contains the record ⟨1, 0, -1, -1⟩, whose duration is not
strictly positive — so the invariant does not hold for every possible
sequence of probe results. -/
theorem resolver_record_nonpositive_duration_cex :
    get_ayah_timings_from_reference envC2 103 =
      some ([⟨1, 0, -1, -1⟩], 0) ∧
      ¬ (0 < (VerseTiming.mk 1 0 (-1) (-1)).duration) := by
  constructor
  · norm_num [get_ayah_timings_from_reference, resolveGo, ayahList, pyGet,
      AYAH_COUNTS, download_reference_ayah, envC2, List.range_succ]
  · norm_num

/-- C2 (amended): provided every successful duration probe returns a
nonnegative value, every record of the resolver output has strictly positive
duration and nonnegative start offset, and the start offsets of consecutive
records are strictly increasing. -/
theorem resolver_records_positive_increasing (env : Env) (s : ℤ) (N : ℕ)
    (hpos : ∀ (a : ℕ) (d : ℚ), env.probe s a = some d → 0 ≤ d)
    (hN : pyGet AYAH_COUNTS (s - 1) = some N)
    (ts : List VerseTiming) (fetches : ℕ)
    (hres : get_ayah_timings_from_reference env s = some (ts, fetches)) :
    (∀ r ∈ ts, 0 < r.duration ∧ 0 ≤ r.start) ∧
      ∀ (i : ℕ) (h : i + 1 < ts.length),
        (ts.get ⟨i, Nat.lt_of_succ_lt h⟩).start < (ts.get ⟨i + 1, h⟩).start := by
  rw [get_ayah_timings_from_reference, hN, Option.map_some'] at hres
  have hres2 : resolveGo env s (ayahList N) 0 = (ts, fetches) :=
    Option.some.inj hres
  have h1 : (resolveGo env s (ayahList N) 0).1 = ts := by rw [hres2]
  have hmem : ∀ r ∈ ts, 0 < r.duration ∧ 0 ≤ r.start := by
    intro r hr
    have := resolveGo_pos env s hpos (ayahList N) 0 le_rfl r (by rw [h1]; exact hr)
    exact this
  refine ⟨hmem, ?_⟩
  have hc := resolveGo_chain env s (ayahList N) 0
  rw [h1] at hc
  intro i h
  have hcontig := List.chain'_iff_get.mp hc i (by omega)
  have hmemi : ts.get ⟨i, Nat.lt_of_succ_lt h⟩ ∈ ts :=
    ts.get_mem i (Nat.lt_of_succ_lt h)
  have hend := resolveGo_mem_end env s (ayahList N) 0
    (ts.get ⟨i, Nat.lt_of_succ_lt h⟩) (by rw [h1]; exact hmemi)
  have hdur := (hmem _ hmemi).1
  calc (ts.get ⟨i, Nat.lt_of_succ_lt h⟩).start
      < (ts.get ⟨i, Nat.lt_of_succ_lt h⟩).start
          + (ts.get ⟨i, Nat.lt_of_succ_lt h⟩).duration := by linarith
    _ = (ts.get ⟨i, Nat.lt_of_succ_lt h⟩).end_ := hend.symm
    _ = (ts.get ⟨i + 1, h⟩).start := hcontig

/-- Witness for the amended C2 at surah 103 under `envC1`. -/
theorem resolver_records_positive_increasing_witness :
    (∀ r ∈ tsC1, 0 < r.duration ∧ 0 ≤ r.start) ∧
      (tsC1.get ⟨0, by norm_num [tsC1]⟩).start <
        (tsC1.get ⟨1, by norm_num [tsC1]⟩).start := by
  have h := resolver_records_positive_increasing envC1 103 3
    (by intro a d hd; simp [envC1] at hd; rw [← hd]; norm_num)
    (by decide) tsC1 0
    (by norm_num [get_ayah_timings_from_reference, resolveGo, ayahList, pyGet,
      AYAH_COUNTS, download_reference_ayah, envC1, tsC1, List.range_succ])
  exact ⟨h.1, h.2 0 (by norm_num [tsC1])⟩

end EveryAyah

namespace EveryAyah

/-- A one-second verse timing record for verse 1, used by concrete runs. -/
def t1 : VerseTiming := ⟨1, 0, 1, 1⟩

/-- Environment whose fast (stream-copy) trims raise an invocation error
(e.g. `OSError`), while re-encoding trims would succeed. -/
def envC5x : Env where
  cached := fun _ _ => true
  fetchOk := fun _ _ => true
  probe := fun _ _ => some 1
  trim := fun c => match c.mode with
    | TrimMode.copy => TrimOutcome.invokeError
    | TrimMode.reencode => TrimOutcome.ok
  inputExists := fun _ => true
  input_dir := "in"
  output_dir := "out"

/-- Counterexample to C5 as stated: under `envC5x` the fast trim for verse 1
fails (invocation error), yet no fallback is attempted and the whole loop
aborts — verse 2 is never processed — because the first `except` clause
only catches `CalledProcessError`. -/
theorem extractor_invocation_error_aborts_cex :
    run_trims envC5x "in" 1 [t1, ⟨2, 1, 1, 2⟩] = none := rfl

/-- C5 (amended): if the fast stream-copy trim exits with a failure status
(`CalledProcessError`), the extractor retries exactly once with the
re-encoding fallback at the same start offset and duration; if the fallback
also fails (for any reason), no output is produced for that verse and
extraction proceeds to the remaining records.  (An invocation error of the
fast trim is caught by neither handler and aborts the loop.) -/
theorem extractor_fallback_on_exit_failure (env : Env) (input : String)
    (s : ℤ) (t : VerseTiming) (rest : List VerseTiming)
    (hfail : env.trim (fastCall env input s t) = TrimOutcome.exitFail) :
    (fallbackCall env input s t).start = (fastCall env input s t).start ∧
    (fallbackCall env input s t).duration = (fastCall env input s t).duration ∧
    (env.trim (fallbackCall env input s t) = TrimOutcome.ok →
      run_trims env input s (t :: rest) =
        (run_trims env input s rest).map
          (⟨t.ayah, [fastCall env input s t, fallbackCall env input s t],
            true⟩ :: ·)) ∧
    (env.trim (fallbackCall env input s t) ≠ TrimOutcome.ok →
      run_trims env input s (t :: rest) =
        (run_trims env input s rest).map
          (⟨t.ayah, [fastCall env input s t, fallbackCall env input s t],
            false⟩ :: ·)) := by
  refine ⟨rfl, rfl, ?_, ?_⟩
  · intro hok
    simp only [run_trims, hfail, hok]
  · intro hnok
    rcases hfb : env.trim (fallbackCall env input s t) with _ | _ | _
    · exact absurd hfb hnok
    · simp only [run_trims, hfail, hfb]
    · simp only [run_trims, hfail, hfb]

/-- Environment whose fast trims exit with a failure status and whose
re-encoding trims succeed. -/
def envC5 : Env where
  cached := fun _ _ => true
  fetchOk := fun _ _ => true
  probe := fun _ _ => some 1
  trim := fun c => match c.mode with
    | TrimMode.copy => TrimOutcome.exitFail
    | TrimMode.reencode => TrimOutcome.ok
  inputExists := fun _ => true
  input_dir := "in"
  output_dir := "out"

/-- Witness for the amended C5: under `envC5` the single record `t1` gets
the fast call and then the successful fallback call. -/
theorem extractor_fallback_on_exit_failure_witness :
    run_trims envC5 "in" 1 [t1] =
      some [⟨t1.ayah, [fastCall envC5 "in" 1 t1, fallbackCall envC5 "in" 1 t1],
        true⟩] := by
  have h := (extractor_fallback_on_exit_failure envC5 "in" 1 t1 [] rfl).2.2.1 rfl
  rw [h]
  rfl

end EveryAyah

namespace EveryAyah

theorem convertGo_processes_all (env : Env) :
    ∀ (L : List ℤ), (∀ s ∈ L, ∃ r, split_surah env s = some r) →
      ∃ l, convertGo env L = some l ∧ l.map Prod.fst = L := by
  intro L
  induction L with
  | nil => intro _; exact ⟨[], rfl, rfl⟩
  | cons c rest ih =>
    intro h
    obtain ⟨r, hr⟩ := h c (List.mem_cons_self c rest)
    obtain ⟨l, hl, hmap⟩ := ih (fun s hs => h s (List.mem_cons_of_mem c hs))
    refine ⟨(c, r) :: l, ?_, ?_⟩
    · simp only [convertGo, hr, hl, Option.map_some']
    · simp [hmap]

/-- C6: a chapter whose input file is missing yields `False` with no trim
calls issued; a chapter whose resolver output is empty does the same after
the resolver runs; and whenever `split_surah` returns for a chapter, the
orchestrator loop processes the remaining chapters exactly as it would
without that chapter prefixed — so every chapter of the requested range is
processed when each `split_surah` returns. -/
theorem chapter_skip_semantics :
    (∀ (env : Env) (c : ℤ), env.inputExists c = false →
        split_surah env c = some (false, [])) ∧
    (∀ (env : Env) (c : ℤ) (f : ℕ), env.inputExists c = true →
        get_ayah_timings_from_reference env c = some ([], f) →
        split_surah env c = some (false, [])) ∧
    (∀ (env : Env) (c : ℤ) (rest : List ℤ) (r : Bool × List VerseEvent),
        split_surah env c = some r →
        convertGo env (c :: rest) = (convertGo env rest).map ((c, r) :: ·)) ∧
    (∀ (env : Env) (start end_ : ℤ),
        (∀ s ∈ pyRangeIncl start end_, ∃ r, split_surah env s = some r) →
        ∃ l, convert_all env start end_ = some l ∧
          l.map Prod.fst = pyRangeIncl start end_) := by
  refine ⟨?_, ?_, ?_, ?_⟩
  · intro env c h
    simp [split_surah, h]
  · intro env c f h1 h2
    simp [split_surah, h1, h2]
  · intro env c rest r h
    simp only [convertGo, h]
  · intro env start end_ h
    exact convertGo_processes_all env (pyRangeIncl start end_) h

/-- Environment with no input chapter files present. -/
def envC6 : Env where
  cached := fun _ _ => true
  fetchOk := fun _ _ => true
  probe := fun _ _ => some 1
  trim := fun _ => TrimOutcome.ok
  inputExists := fun _ => false
  input_dir := "in"
  output_dir := "out"

/-- Witness for C6: chapter 5's input file is missing under `envC6`, so it
is skipped with no events. -/
theorem chapter_skip_semantics_witness :
    split_surah envC6 5 = some (false, []) :=
  chapter_skip_semantics.1 envC6 5 rfl

end EveryAyah

namespace EveryAyah

theorem resolveGo_fetches_zero (env : Env) (s : ℤ) :
    ∀ (l : List ℕ) (cum : ℚ), (∀ a ∈ l, env.cached s a = true) →
      (resolveGo env s l cum).2 = 0 := by
  intro l
  induction l with
  | nil => intro cum _; rfl
  | cons a rest ih =>
    intro cum hc
    have hca : env.cached s a = true := hc a (List.mem_cons_self a rest)
    have hrest : ∀ b ∈ rest, env.cached s b = true :=
      fun b hb => hc b (List.mem_cons_of_mem a hb)
    have hdl : download_reference_ayah env s a =
        (some (reference_path s a), false) := by
      simp [download_reference_ayah, hca]
    have hdl1 : (download_reference_ayah env s a).1 =
        some (reference_path s a) := by rw [hdl]
    have hdl2 : (download_reference_ayah env s a).2 = false := by rw [hdl]
    rcases hp : env.probe s a with _ | d
    · rw [resolveGo_cons_probefail env s a rest cum _ hdl1 hp]
      simp [hdl2, ih cum hrest]
    · by_cases hd : d = 0
      · subst hd
        rw [resolveGo_cons_zero env s a rest cum _ hdl1 hp]
        simp [hdl2, ih cum hrest]
      · rw [resolveGo_cons_ok env s a rest cum _ d hdl1 hp hd]
        simp [hdl2, ih (cum + d) hrest]

/-- C7: a cache hit returns the deterministic cache path with no network
fetch, and a chapter whose reference assets are all cached resolves with
zero network fetch attempts. -/
theorem cached_reference_no_fetch :
    (∀ (env : Env) (s : ℤ) (a : ℕ), env.cached s a = true →
        download_reference_ayah env s a =
          (some (reference_path s a), false)) ∧
    (∀ (env : Env) (s : ℤ) (ts : List VerseTiming) (fetches : ℕ),
        (∀ a, env.cached s a = true) →
        get_ayah_timings_from_reference env s = some (ts, fetches) →
        fetches = 0) := by
  constructor
  · intro env s a h
    simp [download_reference_ayah, h]
  · intro env s ts fetches hc hres
    rcases hN : pyGet AYAH_COUNTS (s - 1) with _ | N
    · rw [get_ayah_timings_from_reference, hN] at hres
      simp at hres
    · rw [get_ayah_timings_from_reference, hN, Option.map_some'] at hres
      have hres2 : resolveGo env s (ayahList N) 0 = (ts, fetches) :=
        Option.some.inj hres
      have h2 : (resolveGo env s (ayahList N) 0).2 = fetches := by rw [hres2]
      rw [← h2]
      exact resolveGo_fetches_zero env s (ayahList N) 0 (fun a _ => hc a)

/-- Witness for C7: under the all-cached `envC1`, the download for
(surah 5, ayah 3) is a cache hit with no fetch, and surah 103 resolves
with zero fetches. -/
theorem cached_reference_no_fetch_witness :
    download_reference_ayah envC1 5 3 = (some (reference_path 5 3), false) ∧
      (0 : ℕ) = 0 := by
  constructor
  · exact cached_reference_no_fetch.1 envC1 5 3 rfl
  · exact cached_reference_no_fetch.2 envC1 103 tsC1 0 (fun _ => rfl)
      (by norm_num [get_ayah_timings_from_reference, resolveGo, ayahList, pyGet,
        AYAH_COUNTS, download_reference_ayah, envC1, tsC1, List.range_succ])

end EveryAyah

namespace EveryAyah

theorem pyFmt03d_natCast (n : ℕ) (h1 : 1 ≤ n) (h2 : n ≤ 999) :
    pyFmt03d (n : ℤ) = specPad3 n := by
  have hneg : ¬ ((n : ℤ) < 0) := by omega
  have htn : ((n : ℤ)).toNat = n := by omega
  rw [pyFmt03d, if_neg hneg, htn, decChars, if_neg (by omega : ¬ n = 0)]
  rcases lt_or_le n 10 with h10 | h10
  · have hd : Nat.digits 10 n = [n] := by
      rw [Nat.digits_def' (by norm_num : (1:ℕ) < 10) (by omega : 0 < n),
        Nat.div_eq_of_lt h10, Nat.digits_zero, Nat.mod_eq_of_lt h10]
    have e1 : n / 100 % 10 = 0 := by omega
    have e2 : n / 10 % 10 = 0 := by omega
    have e3 : n % 10 = n := by omega
    rw [hd, specPad3, e1, e2, e3]
    rfl
  · rcases lt_or_le n 100 with h100 | h100
    · have hd : Nat.digits 10 n = [n % 10, n / 10] := by
        rw [Nat.digits_def' (by norm_num : (1:ℕ) < 10) (by omega : 0 < n),
          Nat.digits_def' (by norm_num : (1:ℕ) < 10) (by omega : 0 < n / 10)]
        have ha : n / 10 / 10 = 0 := by omega
        have hb : n / 10 % 10 = n / 10 := by omega
        rw [ha, Nat.digits_zero, hb]
      have e1 : n / 100 % 10 = 0 := by omega
      have e2 : n / 10 % 10 = n / 10 := by omega
      rw [hd, specPad3, e1, e2]
      rfl
    · have hd : Nat.digits 10 n = [n % 10, n / 10 % 10, n / 100] := by
        rw [Nat.digits_def' (by norm_num : (1:ℕ) < 10) (by omega : 0 < n),
          Nat.digits_def' (by norm_num : (1:ℕ) < 10) (by omega : 0 < n / 10),
          Nat.digits_def' (by norm_num : (1:ℕ) < 10)
            (by omega : 0 < n / 10 / 10)]
        have ha : n / 10 / 10 / 10 = 0 := by omega
        have hb : n / 10 / 10 % 10 = n / 100 := by omega
        rw [ha, Nat.digits_zero, hb]
      have e2 : n / 100 % 10 = n / 100 := by omega
      rw [hd, specPad3, e2]
      rfl

theorem run_trims_events (env : Env) (input : String) (s : ℤ) :
    ∀ (ts : List VerseTiming) (es : List VerseEvent),
      run_trims env input s ts = some es →
      ∀ e ∈ es, ∃ t ∈ ts, e.ayah = t.ayah ∧
        ∀ cl ∈ e.calls, cl.overwrite = true ∧
          cl.output = output_path env s t.ayah := by
  intro ts
  induction ts with
  | nil =>
    intro es h e he
    rw [run_trims] at h
    rw [← Option.some.inj h] at he
    simp at he
  | cons t rest ih =>
    intro es h e he
    rcases hf : env.trim (fastCall env input s t) with _ | _ | _
    · simp only [run_trims, hf] at h
      rcases Option.map_eq_some'.mp h with ⟨es', hes', heq⟩
      rw [← heq] at he
      rcases List.mem_cons.mp he with h1 | h2
      · subst h1
        refine ⟨t, List.mem_cons_self t rest, rfl, ?_⟩
        intro cl hcl
        rw [List.mem_singleton.mp hcl]
        exact ⟨rfl, rfl⟩
      · obtain ⟨t', ht', ha, hcl⟩ := ih es' hes' e h2
        exact ⟨t', List.mem_cons_of_mem t ht', ha, hcl⟩
    · rcases hfb : env.trim (fallbackCall env input s t) with _ | _ | _
      all_goals {
        simp only [run_trims, hf, hfb] at h
        rcases Option.map_eq_some'.mp h with ⟨es', hes', heq⟩
        rw [← heq] at he
        rcases List.mem_cons.mp he with h1 | h2
        · subst h1
          refine ⟨t, List.mem_cons_self t rest, rfl, ?_⟩
          intro cl hcl
          rcases List.mem_cons.mp hcl with hc1 | hc2
          · rw [hc1]; exact ⟨rfl, rfl⟩
          · rw [List.mem_singleton.mp hc2]; exact ⟨rfl, rfl⟩
        · obtain ⟨t', ht', ha, hcl⟩ := ih es' hes' e h2
          exact ⟨t', List.mem_cons_of_mem t ht', ha, hcl⟩ }
    · simp only [run_trims, hf] at h
      exact Option.noConfusion h

/-- C8: every ffmpeg call issued for a verse of a chapter in [1,114] requests
unconditional overwrite (`-y`) and writes to the output directory joined with
the 3-digit zero-padded chapter index concatenated with the 3-digit
zero-padded verse index plus ".mp3". -/
theorem segment_output_paths (env : Env) (input : String) (s : ℤ)
    (hs1 : 1 ≤ s) (hs2 : s ≤ 114) (ts : List VerseTiming)
    (hts : ∀ t ∈ ts, 1 ≤ t.ayah ∧ t.ayah ≤ 286)
    (es : List VerseEvent) (hrun : run_trims env input s ts = some es) :
    ∀ e ∈ es, ∃ t ∈ ts, e.ayah = t.ayah ∧
      ∀ cl ∈ e.calls, cl.overwrite = true ∧
        cl.output = env.output_dir ++ "/" ++ specPad3 s.toNat
          ++ specPad3 t.ayah ++ ".mp3" := by
  intro e he
  obtain ⟨t, ht, ha, hcl⟩ := run_trims_events env input s ts es hrun e he
  refine ⟨t, ht, ha, ?_⟩
  intro cl hclm
  obtain ⟨hov, hout⟩ := hcl cl hclm
  refine ⟨hov, ?_⟩
  rw [hout, output_path]
  have hsn : (s.toNat : ℤ) = s := by omega
  have hfmt1 : pyFmt03d s = specPad3 s.toNat := by
    rw [← hsn]
    exact pyFmt03d_natCast s.toNat (by omega) (by omega)
  have hfmt2 : pyFmt03d (t.ayah : ℤ) = specPad3 t.ayah := by
    obtain ⟨hb1, hb2⟩ := hts t ht
    exact pyFmt03d_natCast t.ayah hb1 (by omega)
  rw [hfmt1, hfmt2]

/-- Witness for C8: the fast call for (surah 1, verse 1) under `envC1`. -/
theorem segment_output_paths_witness :
    (fastCall envC1 "in" 1 t1).overwrite = true ∧
      (fastCall envC1 "in" 1 t1).output =
        envC1.output_dir ++ "/" ++ specPad3 1 ++ specPad3 1 ++ ".mp3" := by
  have h := segment_output_paths envC1 "in" 1 (by norm_num) (by norm_num)
    [t1]
    (by
      intro t ht
      rw [List.mem_singleton.mp ht]
      exact ⟨by norm_num [t1], by norm_num [t1]⟩)
    [⟨t1.ayah, [fastCall envC1 "in" 1 t1], true⟩] rfl
  obtain ⟨t, ht, ha, hcl⟩ :=
    h ⟨t1.ayah, [fastCall envC1 "in" 1 t1], true⟩ (List.mem_singleton.mpr rfl)
  rw [List.mem_singleton.mp ht] at hcl
  exact hcl (fastCall envC1 "in" 1 t1) (List.mem_singleton.mpr rfl)

end EveryAyah

namespace EveryAyah

/-- C10: the table has exactly 114 entries, all strictly positive; the
direct (nonnegative-index) lookup `AYAH_COUNTS[chapter - 1]` is in bounds
exactly when 1 ≤ chapter ≤ 114; and for chapter 0 the lookup does not raise
but silently yields 6, the last table entry — which is also what the lookup
for chapter 114 yields. -/
theorem ayah_counts_table_properties :
    AYAH_COUNTS.length = 114 ∧
    (∀ x ∈ AYAH_COUNTS, 0 < x) ∧
    (∀ c : ℤ, (0 ≤ c - 1 ∧ (c - 1).toNat < AYAH_COUNTS.length) ↔
      (1 ≤ c ∧ c ≤ 114)) ∧
    pyGet AYAH_COUNTS (0 - 1) = some 6 ∧
    pyGet AYAH_COUNTS (114 - 1) = some 6 ∧
    AYAH_COUNTS.getLast? = some 6 := by
  refine ⟨by decide, by decide, ?_, by decide, by decide, by decide⟩
  intro c
  have hlen : AYAH_COUNTS.length = 114 := by decide
  rw [hlen]
  omega

/-- Witness for C10: chapter 5's lookup index is in bounds. -/
theorem ayah_counts_table_properties_witness :
    0 ≤ (5 : ℤ) - 1 ∧ ((5 : ℤ) - 1).toNat < AYAH_COUNTS.length :=
  (ayah_counts_table_properties.2.2.1 5).mpr (by norm_num)

end EveryAyah
